import Mathlib

/-!
Verification of the `banish` rule-driven state-machine DSL
(`banish_derive/src/lib.rs`).

The macro parses a `Context` (states, each holding rules), validates
name uniqueness, and generates a Rust closure: an outer dispatch loop
over a state index, and per state an inner fixed-point loop that
re-runs the state's rules until a full pass sets no interaction flag.

We embed the macro's AST, its validation and code-generation phases,
and the operational semantics of the generated closure.  Host Rust
statements are opaque environment transformers; a `return` statement
inside the generated closure halts the whole run; `=> @state;` becomes
an assignment to the state index plus `continue 'banish_main`.  The
semantics is fuel-indexed (the generated loops need not terminate) and
instrumented with a trace of rule-firing events so that "fires once"
properties are stateable.
-/

namespace Banish

/-- Denotation of an opaque Rust statement pasted into the generated
closure: either a plain side-effecting statement on the environment, or
a `return`/`return expr;` statement (`none` models a bare `return;`). -/
inductive RustStmt (σ ρ : Type) where
  | exec : (σ → σ) → RustStmt σ ρ
  | ret : Option (σ → ρ) → RustStmt σ ρ

/-- `BanishStmt` from the macro AST: an opaque Rust statement or a
`=> @state;` transition naming its target state. -/
inductive BanishStmt (σ ρ : Type) where
  | rust : RustStmt σ ρ → BanishStmt σ ρ
  | stateTransition : String → BanishStmt σ ρ

/-- `Rule` from the macro AST. -/
structure Rule (σ ρ : Type) where
  name : String
  condition : Option (σ → Bool)
  body : List (BanishStmt σ ρ)
  else_body : Option (List (BanishStmt σ ρ))

/-- `State` from the macro AST. -/
structure State (σ ρ : Type) where
  name : String
  rules : List (Rule σ ρ)

/-- `Context` from the macro AST: the whole program. -/
structure Context (σ ρ : Type) where
  states : List (State σ ρ)

/-- The final structural check of `Rule::parse`: a rule with an
else-body (`!?` clause) but no condition is a parse error; otherwise
the rule is built. -/
def mk_rule (name : String) (condition : Option (σ → Bool))
    (body : List (BanishStmt σ ρ)) (else_body : Option (List (BanishStmt σ ρ))) :
    Except String (Rule σ ρ) :=
  if condition.isNone && else_body.isSome then
    Except.error ("Rule " ++ name ++ " cannot have an !? clause without a condition.")
  else
    Except.ok ⟨name, condition, body, else_body⟩

/-- Inner loop of `validate_state_and_rule_names`: walk the rules of a
state with the set of rule names already seen; a repeated name is an
error. -/
def checkRules (stateName : String) : List (Rule σ ρ) → List String → Except String Unit
  | [], _ => Except.ok ()
  | r :: rest, seen =>
    if r.name ∈ seen then
      Except.error ("Duplicate rule " ++ r.name ++ " in state " ++ stateName)
    else
      checkRules stateName rest (r.name :: seen)

/-- Outer loop of `validate_state_and_rule_names`: walk the states with
the set of state names already seen; a repeated state name is an error,
then the state's rules are checked. -/
def validateStates : List (State σ ρ) → List String → Except String Unit
  | [], _ => Except.ok ()
  | s :: rest, seen =>
    if s.name ∈ seen then
      Except.error ("Duplicate state name " ++ s.name)
    else
      match checkRules s.name s.rules [] with
      | Except.error e => Except.error e
      | Except.ok () => validateStates rest (s.name :: seen)

/-- `validate_state_and_rule_names` from the macro. -/
def validate_state_and_rule_names (ctx : Context σ ρ) : Except String Unit :=
  validateStates ctx.states []

/-- A statement of the generated closure: opaque Rust statement,
`return`, or the expansion of a transition
(`__current_state = t; continue 'banish_main;`) with the target already
resolved to a state index. -/
inductive GStmt (σ ρ : Type) where
  | exec : (σ → σ) → GStmt σ ρ
  | ret : Option (σ → ρ) → GStmt σ ρ
  | goto : Nat → GStmt σ ρ

/-- A rule as it appears in the generated code: transitions resolved. -/
structure GRule (σ ρ : Type) where
  name : String
  condition : Option (σ → Bool)
  body : List (GStmt σ ρ)
  else_body : Option (List (GStmt σ ρ))

/-- `Iterator::position`: index of the first element satisfying `p`. -/
def position (p : α → Bool) : List α → Option Nat
  | [] => none
  | a :: rest => if p a then some 0 else (position p rest).map (fun i => i + 1)

/-- `generate_stmt` from the macro: a Rust statement is pasted through;
a transition target is resolved by position among the declared states,
and an unresolved target aborts macro expansion (a compile-time error,
modelled as `Except.error`). -/
def generate_stmt (ctx : Context σ ρ) : BanishStmt σ ρ → Except String (GStmt σ ρ)
  | BanishStmt.rust (RustStmt.exec f) => Except.ok (GStmt.exec f)
  | BanishStmt.rust (RustStmt.ret v) => Except.ok (GStmt.ret v)
  | BanishStmt.stateTransition t =>
    match position (fun s => s.name == t) ctx.states with
    | some i => Except.ok (GStmt.goto i)
    | none => Except.error ("Error: Invalid state transition target " ++ t)

/-- Generate every statement of a block, left to right. -/
def generate_stmts (ctx : Context σ ρ) : List (BanishStmt σ ρ) → Except String (List (GStmt σ ρ))
  | [] => Except.ok []
  | s :: rest =>
    match generate_stmt ctx s with
    | Except.error e => Except.error e
    | Except.ok g =>
      match generate_stmts ctx rest with
      | Except.error e => Except.error e
      | Except.ok gs => Except.ok (g :: gs)

/-- Generate the body and else-body of one rule. -/
def generate_rule (ctx : Context σ ρ) (r : Rule σ ρ) : Except String (GRule σ ρ) :=
  match generate_stmts ctx r.body with
  | Except.error e => Except.error e
  | Except.ok b =>
    match r.else_body with
    | none => Except.ok ⟨r.name, r.condition, b, none⟩
    | some eb =>
      match generate_stmts ctx eb with
      | Except.error e => Except.error e
      | Except.ok geb => Except.ok ⟨r.name, r.condition, b, some geb⟩

/-- Generate all rules of one state. -/
def generate_state (ctx : Context σ ρ) : List (Rule σ ρ) → Except String (List (GRule σ ρ))
  | [] => Except.ok []
  | r :: rest =>
    match generate_rule ctx r with
    | Except.error e => Except.error e
    | Except.ok g =>
      match generate_state ctx rest with
      | Except.error e => Except.error e
      | Except.ok gs => Except.ok (g :: gs)

/-- Generate every state block. -/
def generate_states (ctx : Context σ ρ) : List (State σ ρ) → Except String (List (List (GRule σ ρ)))
  | [] => Except.ok []
  | s :: rest =>
    match generate_state ctx s.rules with
    | Except.error e => Except.error e
    | Except.ok g =>
      match generate_states ctx rest with
      | Except.error e => Except.error e
      | Except.ok gs => Except.ok (g :: gs)

/-- The `banish` macro: validate names first (returning the validation
error unchanged), then generate the state blocks. -/
def banish (ctx : Context σ ρ) : Except String (List (List (GRule σ ρ))) :=
  match validate_state_and_rule_names ctx with
  | Except.error e => Except.error e
  | Except.ok () => generate_states ctx ctx.states

/-- Non-local control after running statements of the generated
closure: fall out normally, `continue 'banish_main` with a new state
index, or `return` from the closure with an optional value. -/
inductive Control (ρ : Type) where
  | normal : Control ρ
  | goto : Nat → Control ρ
  | halt : Option ρ → Control ρ
  deriving DecidableEq

/-- Observable events of a run: a rule's body began executing, or a
rule's else-body began executing. -/
inductive Ev where
  | fired : String → Ev
  | elseFired : String → Ev
  deriving DecidableEq

/-- Outcome of one whole run of the generated closure: a value returned
by a `return` statement, or the panic reached by falling past the last
state. -/
inductive RunResult (ρ : Type) where
  | returned : Option ρ → RunResult ρ
  | panicked : String → RunResult ρ
  deriving DecidableEq

/-- Run a block of generated statements in order; a `return` or a
transition abandons the rest of the block. -/
def runStmts : List (GStmt σ ρ) → σ → σ × Control ρ
  | [], env => (env, Control.normal)
  | GStmt.exec f :: rest, env => runStmts rest (f env)
  | GStmt.ret v :: _, env => (env, Control.halt (v.map (fun g => g env)))
  | GStmt.goto t :: _, env => (env, Control.goto t)

/-- The generated code for one rule, mirroring the three `quote!`
branches of the macro.  `firstIter` is `__first_iteration`, `inter` the
current value of `__interaction`.  A conditioned rule whose condition
holds sets the interaction flag and runs its body; otherwise its
else-body (if any) runs without touching the flag.  A conditionless
rule runs (setting the flag) only when `firstIter` holds. -/
def runRule (firstIter : Bool) (r : GRule σ ρ) (inter : Bool) (env : σ) :
    σ × Bool × List Ev × Control ρ :=
  match r.condition with
  | some c =>
    if c env then
      match runStmts r.body env with
      | (env1, ctl) => (env1, true, [Ev.fired r.name], ctl)
    else
      match r.else_body with
      | some eb =>
        match runStmts eb env with
        | (env1, ctl) => (env1, inter, [Ev.elseFired r.name], ctl)
      | none => (env, inter, [], Control.normal)
  | none =>
    if firstIter then
      match runStmts r.body env with
      | (env1, ctl) => (env1, true, [Ev.fired r.name], ctl)
    else (env, inter, [], Control.normal)

/-- One pass over a state's rules: the rules' generated blocks run in
declaration order; a `goto` or `halt` arising inside a body abandons
the remaining rules of the pass (`continue 'banish_main` / `return`
jump out of the generated code non-locally). -/
def runRules (firstIter : Bool) : List (GRule σ ρ) → Bool → σ → σ × Bool × List Ev × Control ρ
  | [], inter, env => (env, inter, [], Control.normal)
  | r :: rest, inter, env =>
    match runRule firstIter r inter env with
    | (env1, inter1, tr1, Control.normal) =>
      match runRules firstIter rest inter1 env1 with
      | (env2, inter2, tr2, ctl) => (env2, inter2, tr1 ++ tr2, ctl)
    | (env1, inter1, tr1, Control.goto t) => (env1, inter1, tr1, Control.goto t)
    | (env1, inter1, tr1, Control.halt v) => (env1, inter1, tr1, Control.halt v)

/-- The generated per-state loop: each iteration resets `__interaction`
to false, runs one pass, then clears `__first_iteration`; the loop
exits (fall through, `Control.normal`) when a pass raised no
interaction, and a `goto` or `halt` leaves it immediately.  Fuel bounds
the number of passes; `none` means fuel ran out. -/
def stateLoop (rules : List (GRule σ ρ)) : Nat → Bool → σ → Option (σ × List Ev × Control ρ)
  | 0, _, _ => none
  | Nat.succ fuel, firstIter, env =>
    match runRules firstIter rules false env with
    | (env1, inter, tr, Control.normal) =>
      if inter then
        match stateLoop rules fuel false env1 with
        | none => none
        | some (env2, tr2, out) => some (env2, tr ++ tr2, out)
      else some (env1, tr, Control.normal)
    | (env1, _, tr, Control.goto t) => some (env1, tr, Control.goto t)
    | (env1, _, tr, Control.halt v) => some (env1, tr, Control.halt v)

/-- The generated outer dispatch loop (`'banish_main`): match on the
current state index; an in-range index enters that state's loop with
`__first_iteration = true`; normal exit increments the index, a
transition restarts the dispatch at the target, `return` ends the run;
an out-of-range index hits the `panic!` arm. -/
def runFrom (prog : List (List (GRule σ ρ))) : Nat → Nat → σ → Option (σ × List Ev × RunResult ρ)
  | 0, _, _ => none
  | Nat.succ fuel, i, env =>
    if h : i < prog.length then
      match stateLoop (prog.get ⟨i, h⟩) (Nat.succ fuel) true env with
      | none => none
      | some (env1, tr, Control.normal) =>
        match runFrom prog fuel (i + 1) env1 with
        | none => none
        | some (env2, tr2, res) => some (env2, tr ++ tr2, res)
      | some (env1, tr, Control.goto t) =>
        match runFrom prog fuel t env1 with
        | none => none
        | some (env2, tr2, res) => some (env2, tr ++ tr2, res)
      | some (env1, tr, Control.halt v) => some (env1, tr, RunResult.returned v)
    else some (env, [], RunResult.panicked "Error: No return in final state")

/-- A whole run of the generated closure starts at state index 0. -/
def run (prog : List (List (GRule σ ρ))) (fuel : Nat) (env : σ) :
    Option (σ × List Ev × RunResult ρ) :=
  runFrom prog fuel 0 env

/-- A full pass through `rules` in which every conditioned rule's
condition evaluates to false (at the environment current when the rule
is reached), every else-body runs to completion (no transition or
return inside it), and conditionless rules are skipped:
`NoFirePass rules env env1` says such a pass turns `env` into `env1`
while no rule fires. -/
inductive NoFirePass {σ ρ : Type} : List (GRule σ ρ) → σ → σ → Prop where
  | nil : ∀ env, NoFirePass [] env env
  | condNoElse : ∀ (r : GRule σ ρ) rest c env env1,
      r.condition = some c → c env = false → r.else_body = none →
      NoFirePass rest env env1 → NoFirePass (r :: rest) env env1
  | condElse : ∀ (r : GRule σ ρ) rest c eb env enve env1,
      r.condition = some c → c env = false → r.else_body = some eb →
      runStmts eb env = (enve, Control.normal) →
      NoFirePass rest enve env1 → NoFirePass (r :: rest) env env1
  | uncond : ∀ (r : GRule σ ρ) rest env env1,
      r.condition = none →
      NoFirePass rest env env1 → NoFirePass (r :: rest) env env1

/-- Example rule: always-true condition whose body returns at once. -/
def haltRule : GRule Nat Nat :=
  ⟨"r1", some (fun _ => true), [GStmt.ret none], none⟩

/-- Example rule: conditionless, bumps the environment by 100. -/
def onceRule : GRule Nat Nat :=
  ⟨"u", none, [GStmt.exec (fun e => e + 100)], none⟩

/-- Example state in which a return precedes a conditionless rule. -/
def retThenOnce : List (GRule Nat Nat) := [haltRule, onceRule]

/-- Example program: one state, one conditionless rule, no return. -/
def noReturnProg : List (List (GRule Nat Nat)) :=
  [[⟨"u", none, [GStmt.exec (fun e => e + 1)], none⟩]]

/-- Example rule: never-true condition with a side-effecting else. -/
def elseRule : GRule Nat Nat :=
  ⟨"a", some (fun _ => false), [], some [GStmt.exec (fun e => e + 5)]⟩

/-- Example context with two states of the same name. -/
def ctxDup : Context Nat Nat := ⟨[⟨"s", []⟩, ⟨"s", []⟩]⟩

/-- Example context whose only transition names a state that does not
exist. -/
def ctxBadTarget : Context Nat Nat :=
  ⟨[⟨"s", [⟨"r", none, [BanishStmt.stateTransition "nowhere"], none⟩]⟩]⟩

/-! ### Sequencing lemmas -/

theorem runStmts_append (xs ys : List (GStmt σ ρ)) (env : σ) :
    runStmts (xs ++ ys) env =
      match runStmts xs env with
      | (e1, Control.normal) => runStmts ys e1
      | (e1, c) => (e1, c) := by
  induction xs generalizing env with
  | nil => simp [runStmts]
  | cons s rest ih =>
    cases s with
    | exec f => simpa [runStmts] using ih (f env)
    | ret v => simp [runStmts]
    | goto t => simp [runStmts]

theorem runRules_append (fi : Bool) (xs ys : List (GRule σ ρ)) (inter : Bool) (env : σ) :
    runRules fi (xs ++ ys) inter env =
      match runRules fi xs inter env with
      | (e1, b1, t1, Control.normal) =>
        (match runRules fi ys b1 e1 with
         | (e2, b2, t2, c) => (e2, b2, t1 ++ t2, c))
      | (e1, b1, t1, c) => (e1, b1, t1, c) := by
  induction xs generalizing inter env with
  | nil =>
    rcases h : runRules fi ys inter env with ⟨e2, b2, t2, c⟩
    simp [runRules, h]
  | cons r rest ih =>
    show runRules fi (r :: (rest ++ ys)) inter env = _
    rcases h : runRule fi r inter env with ⟨e1, b1, t1, ctl⟩
    cases ctl with
    | normal =>
      rcases h2 : runRules fi rest b1 e1 with ⟨e2, b2, t2, c2⟩
      cases c2 with
      | normal =>
        rcases h3 : runRules fi ys b2 e2 with ⟨e3, b3, t3, c3⟩
        simp [runRules, h, ih, h2, h3, List.append_assoc]
      | goto t => simp [runRules, h, ih, h2]
      | halt v => simp [runRules, h, ih, h2]
    | goto t => simp [runRules, h]
    | halt v => simp [runRules, h]

theorem runRules_append_normal {fi : Bool} {xs : List (GRule σ ρ)} (ys : List (GRule σ ρ))
    {inter : Bool} {env e1 : σ} {b1 : Bool} {t1 : List Ev}
    (h : runRules fi xs inter env = (e1, b1, t1, Control.normal))
    {e2 : σ} {b2 : Bool} {t2 : List Ev} {c : Control ρ}
    (h2 : runRules fi ys b1 e1 = (e2, b2, t2, c)) :
    runRules fi (xs ++ ys) inter env = (e2, b2, t1 ++ t2, c) := by
  simp [runRules_append, h, h2]

theorem runRules_append_abort {fi : Bool} {xs : List (GRule σ ρ)} (ys : List (GRule σ ρ))
    {inter : Bool} {env e1 : σ} {b1 : Bool} {t1 : List Ev} {c : Control ρ}
    (h : runRules fi xs inter env = (e1, b1, t1, c)) (hc : c ≠ Control.normal) :
    runRules fi (xs ++ ys) inter env = (e1, b1, t1, c) := by
  cases c with
  | normal => exact absurd rfl hc
  | goto t => simp [runRules_append, h]
  | halt v => simp [runRules_append, h]

theorem runRules_cons_normal {fi : Bool} {r : GRule σ ρ} {rest : List (GRule σ ρ)}
    {inter : Bool} {env e1 : σ} {b1 : Bool} {t1 : List Ev}
    (h : runRule fi r inter env = (e1, b1, t1, Control.normal))
    {e2 : σ} {b2 : Bool} {t2 : List Ev} {c : Control ρ}
    (h2 : runRules fi rest b1 e1 = (e2, b2, t2, c)) :
    runRules fi (r :: rest) inter env = (e2, b2, t1 ++ t2, c) := by
  simp [runRules, h, h2]

theorem runRules_cons_abort {fi : Bool} {r : GRule σ ρ} {rest : List (GRule σ ρ)}
    {inter : Bool} {env e1 : σ} {b1 : Bool} {t1 : List Ev} {c : Control ρ}
    (h : runRule fi r inter env = (e1, b1, t1, c)) (hc : c ≠ Control.normal) :
    runRules fi (r :: rest) inter env = (e1, b1, t1, c) := by
  cases c with
  | normal => exact absurd rfl hc
  | goto t => simp [runRules, h]
  | halt v => simp [runRules, h]

/-! ### Trace-counting lemmas -/

theorem runRule_trace_shape (fi : Bool) (r : GRule σ ρ) (inter : Bool) (env : σ) :
    (runRule fi r inter env).2.2.1 = [] ∨
    (runRule fi r inter env).2.2.1 = [Ev.fired r.name] ∨
    (runRule fi r inter env).2.2.1 = [Ev.elseFired r.name] := by
  unfold runRule
  rcases r with ⟨nm, cond, body, eb⟩
  cases cond with
  | none =>
    cases fi with
    | true =>
      rcases h : runStmts body env with ⟨e1, c⟩
      simp [h]
    | false => simp
  | some c =>
    by_cases hc : c env
    · rcases h : runStmts body env with ⟨e1, c1⟩
      simp [hc, h]
    · cases eb with
      | none => simp [hc]
      | some ebl =>
        rcases h : runStmts ebl env with ⟨e1, c1⟩
        simp [hc, h]

theorem runRule_count_le_one {fi : Bool} {r : GRule σ ρ} {inter : Bool} {env e1 : σ}
    {b1 : Bool} {t1 : List Ev} {c : Control ρ} (n : String)
    (h : runRule fi r inter env = (e1, b1, t1, c)) :
    t1.count (Ev.fired n) ≤ 1 := by
  have hs := runRule_trace_shape fi r inter env
  rw [h] at hs
  have hlen : t1.length ≤ 1 := by
    rcases hs with hs | hs | hs
    · have h2 : t1 = [] := hs
      simp [h2]
    · have h2 : t1 = [Ev.fired r.name] := hs
      simp [h2]
    · have h2 : t1 = [Ev.elseFired r.name] := hs
      simp [h2]
  exact le_trans (List.count_le_length _ _) hlen

theorem runRule_count_ne {fi : Bool} {r : GRule σ ρ} {inter : Bool} {env e1 : σ}
    {b1 : Bool} {t1 : List Ev} {c : Control ρ} {n : String} (hn : r.name ≠ n)
    (h : runRule fi r inter env = (e1, b1, t1, c)) :
    t1.count (Ev.fired n) = 0 := by
  have hs := runRule_trace_shape fi r inter env
  rw [h] at hs
  rcases hs with hs | hs | hs
  · have h2 : t1 = [] := hs
    simp [h2]
  · have h2 : t1 = [Ev.fired r.name] := hs
    simp [h2, List.count_cons, hn, Ne.symm hn]
  · have h2 : t1 = [Ev.elseFired r.name] := hs
    simp [h2, List.count_cons]

theorem runRule_uncond_skip {r : GRule σ ρ} (hc : r.condition = none)
    (inter : Bool) (env : σ) :
    runRule false r inter env = (env, inter, [], Control.normal) := by
  simp [runRule, hc]

theorem runRules_count_notin (n : String) :
    ∀ (rules : List (GRule σ ρ)) (fi inter : Bool) (env e : σ) (b : Bool) (t : List Ev)
      (c : Control ρ), (∀ r ∈ rules, r.name ≠ n) →
      runRules fi rules inter env = (e, b, t, c) → t.count (Ev.fired n) = 0 := by
  intro rules
  induction rules with
  | nil =>
    intro fi inter env e b t c _ hrun
    have h0 : (env, inter, ([] : List Ev), (Control.normal : Control ρ)) = (e, b, t, c) := hrun
    cases h0
    simp
  | cons r rest ih =>
    intro fi inter env e b t c hn hrun
    rcases h1 : runRule fi r inter env with ⟨e1, b1, t1, c1⟩
    have hc1 := runRule_count_ne (hn r (by simp)) h1
    cases c1 with
    | normal =>
      rcases h2 : runRules fi rest b1 e1 with ⟨e2, b2, t2, c2⟩
      rw [runRules_cons_normal h1 h2] at hrun
      cases hrun
      have hc2 := ih fi b1 e1 e b t2 c (fun r' hr' => hn r' (by simp [hr'])) h2
      simp [List.count_append, hc1, hc2]
    | goto tg =>
      rw [runRules_cons_abort h1 (by simp)] at hrun
      cases hrun
      exact hc1
    | halt v =>
      rw [runRules_cons_abort h1 (by simp)] at hrun
      cases hrun
      exact hc1

theorem runRules_count_nodup_le_one (n : String) :
    ∀ (rules : List (GRule σ ρ)) (fi inter : Bool) (env e : σ) (b : Bool) (t : List Ev)
      (c : Control ρ), ((rules.map GRule.name).Nodup) →
      runRules fi rules inter env = (e, b, t, c) → t.count (Ev.fired n) ≤ 1 := by
  intro rules
  induction rules with
  | nil =>
    intro fi inter env e b t c _ hrun
    have h0 : (env, inter, ([] : List Ev), (Control.normal : Control ρ)) = (e, b, t, c) := hrun
    cases h0
    simp
  | cons r rest ih =>
    intro fi inter env e b t c hnd hrun
    simp only [List.map_cons, List.nodup_cons] at hnd
    rcases h1 : runRule fi r inter env with ⟨e1, b1, t1, c1⟩
    have hle1 := runRule_count_le_one n h1
    cases c1 with
    | normal =>
      rcases h2 : runRules fi rest b1 e1 with ⟨e2, b2, t2, c2⟩
      rw [runRules_cons_normal h1 h2] at hrun
      cases hrun
      by_cases he : r.name = n
      · have hz : t2.count (Ev.fired n) = 0 := by
          refine runRules_count_notin n rest fi b1 e1 e b t2 c ?_ h2
          intro r' hr' hcon
          exact hnd.1 (by rw [he, ← hcon]; exact List.mem_map_of_mem GRule.name hr')
        simp [List.count_append, hz]
        exact hle1
      · have hz : t1.count (Ev.fired n) = 0 := runRule_count_ne he h1
        have hle2 := ih fi b1 e1 e b t2 c hnd.2 h2
        simp [List.count_append, hz]
        exact hle2
    | goto tg =>
      rw [runRules_cons_abort h1 (by simp)] at hrun
      cases hrun
      exact hle1
    | halt v =>
      rw [runRules_cons_abort h1 (by simp)] at hrun
      cases hrun
      exact hle1

theorem runRules_skip_count (n : String) :
    ∀ (rules : List (GRule σ ρ)) (inter : Bool) (env e : σ) (b : Bool) (t : List Ev)
      (c : Control ρ), (∀ r ∈ rules, r.name = n → r.condition = none) →
      runRules false rules inter env = (e, b, t, c) → t.count (Ev.fired n) = 0 := by
  intro rules
  induction rules with
  | nil =>
    intro inter env e b t c _ hrun
    have h0 : (env, inter, ([] : List Ev), (Control.normal : Control ρ)) = (e, b, t, c) := hrun
    cases h0
    simp
  | cons r rest ih =>
    intro inter env e b t c hn hrun
    by_cases he : r.name = n
    · have hskip := runRule_uncond_skip (hn r (by simp) he) inter env
      rcases h2 : runRules false rest inter env with ⟨e2, b2, t2, c2⟩
      rw [runRules_cons_normal hskip h2] at hrun
      cases hrun
      simpa using ih inter env e b t2 c (fun r' hr' => hn r' (by simp [hr'])) h2
    · rcases h1 : runRule false r inter env with ⟨e1, b1, t1, c1⟩
      have hz : t1.count (Ev.fired n) = 0 := runRule_count_ne he h1
      cases c1 with
      | normal =>
        rcases h2 : runRules false rest b1 e1 with ⟨e2, b2, t2, c2⟩
        rw [runRules_cons_normal h1 h2] at hrun
        cases hrun
        have hz2 := ih b1 e1 e b t2 c (fun r' hr' => hn r' (by simp [hr'])) h2
        simp [List.count_append, hz, hz2]
      | goto tg =>
        rw [runRules_cons_abort h1 (by simp)] at hrun
        cases hrun
        exact hz
      | halt v =>
        rw [runRules_cons_abort h1 (by simp)] at hrun
        cases hrun
        exact hz

/-- In a state whose rule names are pairwise distinct, a rule is
determined by its name. -/
theorem name_determines_rule {rules : List (GRule σ ρ)}
    (hnd : (rules.map GRule.name).Nodup) {r r' : GRule σ ρ}
    (hr : r ∈ rules) (hr' : r' ∈ rules) (he : r'.name = r.name) : r' = r :=
  List.inj_on_of_nodup_map hnd hr' hr he

theorem stateLoop_skip_count (n : String) :
    ∀ (fuel : Nat) (rules : List (GRule σ ρ)) (env e : σ) (tr : List Ev) (out : Control ρ),
      (∀ r ∈ rules, r.name = n → r.condition = none) →
      stateLoop rules fuel false env = some (e, tr, out) → tr.count (Ev.fired n) = 0 := by
  intro fuel
  induction fuel with
  | zero =>
    intro rules env e tr out _ hs
    simp [stateLoop] at hs
  | succ fuel ih =>
    intro rules env e tr out hn hs
    rcases hp : runRules false rules false env with ⟨e1, inter, t1, c1⟩
    have hz1 := runRules_skip_count n rules false env e1 inter t1 c1 hn hp
    simp only [stateLoop] at hs
    rw [hp] at hs
    cases c1 with
    | normal =>
      cases inter with
      | false =>
        simp at hs
        rw [← hs.2.1]
        exact hz1
      | true =>
        simp at hs
        rcases h2 : stateLoop rules fuel false e1 with _ | ⟨e2, t2, out2⟩
        · rw [h2] at hs
          simp at hs
        · rw [h2] at hs
          simp at hs
          have hz2 := ih rules e1 e2 t2 out2 hn h2
          rw [← hs.2.1]
          simp [List.count_append, hz1, hz2]
    | goto tg =>
      simp at hs
      rw [← hs.2.1]
      exact hz1
    | halt v =>
      simp at hs
      rw [← hs.2.1]
      exact hz1

theorem nodup_middle_not_mem {pre post : List (GRule σ ρ)} {r : GRule σ ρ}
    (hnd : ((pre ++ r :: post).map GRule.name).Nodup) :
    (∀ r' ∈ pre, r'.name ≠ r.name) ∧ (∀ r' ∈ post, r'.name ≠ r.name) := by
  rw [List.map_append, List.map_cons, List.nodup_append] at hnd
  constructor
  · intro r' hr' he
    exact hnd.2.2 (List.mem_map_of_mem GRule.name hr') (by simp [he])
  · intro r' hr' he
    have := (List.nodup_cons.mp hnd.2.1).1
    exact this (by rw [← he]; exact List.mem_map_of_mem GRule.name hr')

theorem stateLoop_first_count_le_one {rules : List (GRule σ ρ)} {r : GRule σ ρ}
    (hnd : (rules.map GRule.name).Nodup) (hr : r ∈ rules) (hc : r.condition = none)
    {fuel : Nat} {env e : σ} {tr : List Ev} {out : Control ρ}
    (hs : stateLoop rules fuel true env = some (e, tr, out)) :
    tr.count (Ev.fired r.name) ≤ 1 := by
  have hn : ∀ r' ∈ rules, r'.name = r.name → r'.condition = none := by
    intro r' hr' he
    rw [name_determines_rule hnd hr hr' he]
    exact hc
  cases fuel with
  | zero => simp [stateLoop] at hs
  | succ fuel =>
    rcases hp : runRules true rules false env with ⟨e1, inter, t1, c1⟩
    have hle1 := runRules_count_nodup_le_one r.name rules true false env e1 inter t1 c1 hnd hp
    simp only [stateLoop] at hs
    rw [hp] at hs
    cases c1 with
    | normal =>
      cases inter with
      | false =>
        simp at hs
        rw [← hs.2.1]
        exact hle1
      | true =>
        simp at hs
        rcases h2 : stateLoop rules fuel false e1 with _ | ⟨e2, t2, out2⟩
        · rw [h2] at hs
          simp at hs
        · rw [h2] at hs
          simp at hs
          have hz2 := stateLoop_skip_count r.name fuel rules e1 e2 t2 out2 hn h2
          rw [← hs.2.1]
          simp [List.count_append, hz2]
          exact hle1
    | goto tg =>
      simp at hs
      rw [← hs.2.1]
      exact hle1
    | halt v =>
      simp at hs
      rw [← hs.2.1]
      exact hle1

theorem stateLoop_first_reached_count_one {pre post : List (GRule σ ρ)} {r : GRule σ ρ}
    (hnd : (((pre ++ r :: post)).map GRule.name).Nodup) (hc : r.condition = none)
    {fuel : Nat} {env e e1 : σ} {b1 : Bool} {t1 tr : List Ev} {out : Control ρ}
    (hpre : runRules true pre false env = (e1, b1, t1, Control.normal))
    (hs : stateLoop (pre ++ r :: post) (fuel + 1) true env = some (e, tr, out)) :
    tr.count (Ev.fired r.name) = 1 := by
  obtain ⟨hnpre, hnpost⟩ := nodup_middle_not_mem hnd
  have hz1 : t1.count (Ev.fired r.name) = 0 :=
    runRules_count_notin r.name pre true false env e1 b1 t1 Control.normal hnpre hpre
  rcases hb : runStmts r.body e1 with ⟨e2, ctl⟩
  have hfire : runRule true r b1 e1 = (e2, true, [Ev.fired r.name], ctl) := by
    simp [runRule, hc, hb]
  have hn : ∀ r' ∈ pre ++ r :: post, r'.name = r.name → r'.condition = none := by
    intro r' hr' he
    rw [name_determines_rule hnd (by simp) hr' he]
    exact hc
  cases ctl with
    | normal =>
      rcases h3 : runRules true post true e2 with ⟨e3, b3, t3, c3⟩
      have hz3 : t3.count (Ev.fired r.name) = 0 :=
        runRules_count_notin r.name post true true e2 e3 b3 t3 c3 hnpost h3
      have hpass : runRules true (pre ++ r :: post) false env =
          (e3, b3, t1 ++ (Ev.fired r.name :: t3), c3) :=
        runRules_append_normal (r :: post) hpre (runRules_cons_normal hfire h3)
      simp only [stateLoop] at hs
      rw [hpass] at hs
      cases c3 with
      | normal =>
        cases b3 with
        | false =>
          simp at hs
          rw [← hs.2.1]
          simp [List.count_append, List.count_cons, hz1, hz3]
        | true =>
          simp at hs
          rcases h4 : stateLoop (pre ++ r :: post) fuel false e3 with _ | ⟨e4, t4, out4⟩
          · rw [h4] at hs
            simp at hs
          · rw [h4] at hs
            simp at hs
            have hz4 := stateLoop_skip_count r.name fuel (pre ++ r :: post) e3 e4 t4 out4 hn h4
            rw [← hs.2.1]
            simp [List.count_append, List.count_cons, hz1, hz3, hz4]
      | goto tg =>
        simp at hs
        rw [← hs.2.1]
        simp [List.count_append, List.count_cons, hz1, hz3]
      | halt v =>
        simp at hs
        rw [← hs.2.1]
        simp [List.count_append, List.count_cons, hz1, hz3]
    | goto tg =>
      have hpass : runRules true (pre ++ r :: post) false env =
          (e2, true, t1 ++ [Ev.fired r.name], Control.goto tg) :=
        runRules_append_normal (r :: post) hpre (runRules_cons_abort hfire (by simp))
      simp only [stateLoop] at hs
      rw [hpass] at hs
      simp at hs
      rw [← hs.2.1]
      simp [List.count_append, List.count_cons, hz1]
    | halt v =>
      have hpass : runRules true (pre ++ r :: post) false env =
          (e2, true, t1 ++ [Ev.fired r.name], Control.halt v) :=
        runRules_append_normal (r :: post) hpre (runRules_cons_abort hfire (by simp))
      simp only [stateLoop] at hs
      rw [hpass] at hs
      simp at hs
      rw [← hs.2.1]
      simp [List.count_append, List.count_cons, hz1]

/-! ### Claims -/

/-- **C1** (counterexample).  The claim says the body of each
conditionless rule executes exactly once per state entry.  In the state
`retThenOnce` a conditioned rule returns during the first pass before
the conditionless rule "u" is reached, so entering the state executes
"u" zero times: the trace of the entry holds no firing of "u" and the
environment is untouched (the body would have added 100). -/
theorem c1_counterexample :
    stateLoop retThenOnce 3 true 0 = some (0, [Ev.fired "r1"], Control.halt none) ∧
    List.count (Ev.fired "u") [Ev.fired "r1"] ≠ 1 := by
  exact ⟨rfl, by decide⟩

/-- **C1** (amended).  During one entry into a state whose rule names
are distinct, a conditionless rule's body executes at most once,
however many passes the fixed-point loop performs; and it executes
exactly once provided the first pass reaches it (no earlier rule
transitions or returns first).  Re-entry via transition starts a fresh
`stateLoop` with the first-pass flag true, re-arming it. -/
theorem c1_conditionless_once_per_entry {rules : List (GRule σ ρ)} {r : GRule σ ρ}
    (hnd : (rules.map GRule.name).Nodup) (hr : r ∈ rules) (hc : r.condition = none)
    {fuel : Nat} {env e : σ} {tr : List Ev} {out : Control ρ}
    (hs : stateLoop rules fuel true env = some (e, tr, out)) :
    tr.count (Ev.fired r.name) ≤ 1 ∧
    (∀ pre post e1 b1 t1, rules = pre ++ r :: post →
      runRules true pre false env = (e1, b1, t1, Control.normal) →
      tr.count (Ev.fired r.name) = 1) := by
  refine ⟨stateLoop_first_count_le_one hnd hr hc hs, ?_⟩
  intro pre post e1 b1 t1 hsplit hpre
  subst hsplit
  cases fuel with
  | zero => simp [stateLoop] at hs
  | succ fuel => exact stateLoop_first_reached_count_one hnd hc hpre hs

/-- Witness for C1: a one-rule state whose conditionless rule fires
exactly once although the fixed-point loop takes two passes. -/
theorem c1_witness :
    stateLoop [onceRule] 3 true 0 = some (100, [Ev.fired "u"], Control.normal) ∧
    List.count (Ev.fired "u") [Ev.fired "u"] = 1 := by
  have hs : stateLoop [onceRule] 3 true 0 =
      some (100, [Ev.fired "u"], Control.normal) := rfl
  refine ⟨hs, ?_⟩
  exact (c1_conditionless_once_per_entry (by simp) (by simp) rfl hs).2
    [] [] 0 false [] rfl rfl

/-- **C2**.  A `StateTransition` action short-circuits: (1) the
statements after it in its block do not run; (2) as the fired rule of a
pass it ends the pass with `Control.goto`, so the rules after it do not
run in that pass (the result does not depend on `post`); (3) the state
loop propagates the `goto` out immediately, performing no further
pass; (4) the dispatch loop then continues at the target state; and
(5) every entry into a state — in particular one entered through a
transition, visited before or not — starts its loop with the first-pass
flag `true`. -/
theorem c2_transition_short_circuit :
    (∀ (pre post : List (GStmt σ ρ)) (t : Nat) (env e1 : σ),
      runStmts pre env = (e1, Control.normal) →
      runStmts (pre ++ GStmt.goto t :: post) env = (e1, Control.goto t)) ∧
    (∀ (fi : Bool) (pre post : List (GRule σ ρ)) (r : GRule σ ρ) (c : σ → Bool)
       (t : Nat) (env e1 e2 : σ) (b1 : Bool) (t1 : List Ev),
      runRules fi pre false env = (e1, b1, t1, Control.normal) →
      r.condition = some c → c e1 = true →
      runStmts r.body e1 = (e2, Control.goto t) →
      runRules fi (pre ++ r :: post) false env =
        (e2, true, t1 ++ [Ev.fired r.name], Control.goto t)) ∧
    (∀ (rules : List (GRule σ ρ)) (fi : Bool) (fuel : Nat) (env e1 : σ) (b1 : Bool)
       (t1 : List Ev) (t : Nat),
      runRules fi rules false env = (e1, b1, t1, Control.goto t) →
      stateLoop rules (fuel + 1) fi env = some (e1, t1, Control.goto t)) ∧
    (∀ (prog : List (List (GRule σ ρ))) (i t fuel : Nat) (env e1 : σ) (t1 : List Ev)
       (hi : i < prog.length),
      stateLoop (prog.get ⟨i, hi⟩) (fuel + 1) true env = some (e1, t1, Control.goto t) →
      runFrom prog (fuel + 1) i env =
        (match runFrom prog fuel t e1 with
         | none => none
         | some (e2, t2, res) => some (e2, t1 ++ t2, res))) ∧
    (∀ (prog : List (List (GRule σ ρ))) (t fuel : Nat) (env : σ) (ht : t < prog.length),
      runFrom prog (fuel + 1) t env =
        (match stateLoop (prog.get ⟨t, ht⟩) (fuel + 1) true env with
         | none => none
         | some (e1, t1, Control.normal) =>
           (match runFrom prog fuel (t + 1) e1 with
            | none => none
            | some (e2, t2, res) => some (e2, t1 ++ t2, res))
         | some (e1, t1, Control.goto u) =>
           (match runFrom prog fuel u e1 with
            | none => none
            | some (e2, t2, res) => some (e2, t1 ++ t2, res))
         | some (e1, t1, Control.halt v) => some (e1, t1, RunResult.returned v))) := by
  refine ⟨?_, ?_, ?_, ?_, ?_⟩
  · intro pre post t env e1 h
    rw [runStmts_append, h]
    simp [runStmts]
  · intro fi pre post r c t env e1 e2 b1 t1 hpre hc hce hb
    have hfire : runRule fi r b1 e1 = (e2, true, [Ev.fired r.name], Control.goto t) := by
      simp [runRule, hc, hce, hb]
    exact runRules_append_normal (r :: post) hpre (runRules_cons_abort hfire (by simp))
  · intro rules fi fuel env e1 b1 t1 t h
    simp [stateLoop, h]
  · intro prog i t fuel env e1 t1 hi hs
    simp only [runFrom, hi, dif_pos]
    rw [hs]
  · intro prog t fuel env ht
    simp only [runFrom, ht, dif_pos]

/-- Witness for C2: a two-state program where state 0 transitions to
state 1 before a later rule can run; the conditionless rule of state 1
fires on entry, showing its first-pass flag was true. -/
theorem c2_witness :
    runStmts ([] ++ GStmt.goto 1 :: [GStmt.exec (fun e => e + 7)]) (0 : Nat) =
      ((0 : Nat), Control.goto (ρ := Nat) 1) := by
  exact (@c2_transition_short_circuit Nat Nat).1 [] [GStmt.exec (fun e => e + 7)] 1 0 0 rfl

/-- **C3**.  A `return` statement halts the whole run: (1) it ends its
statement block with `Control.halt` carrying the evaluated value (or
the empty value for a bare `return;`), skipping the rest of the block;
(2) arising in a fired rule's body it ends the pass — later rules do
not run (the result does not depend on `post`); (3) likewise when it
arises in an executed else-body; (4) the state loop propagates the halt
without a further pass; (5) the dispatch loop ends the entire run with
`RunResult.returned` — no further states execute. -/
theorem c3_return_halts :
    (∀ (pre post : List (GStmt σ ρ)) (v : Option (σ → ρ)) (env e1 : σ),
      runStmts pre env = (e1, Control.normal) →
      runStmts (pre ++ GStmt.ret v :: post) env =
        (e1, Control.halt (v.map (fun g => g e1)))) ∧
    (∀ (fi : Bool) (pre post : List (GRule σ ρ)) (r : GRule σ ρ) (c : σ → Bool)
       (w : Option ρ) (env e1 e2 : σ) (b1 : Bool) (t1 : List Ev),
      runRules fi pre false env = (e1, b1, t1, Control.normal) →
      r.condition = some c → c e1 = true →
      runStmts r.body e1 = (e2, Control.halt w) →
      runRules fi (pre ++ r :: post) false env =
        (e2, true, t1 ++ [Ev.fired r.name], Control.halt w)) ∧
    (∀ (fi : Bool) (pre post : List (GRule σ ρ)) (r : GRule σ ρ) (c : σ → Bool)
       (eb : List (GStmt σ ρ)) (w : Option ρ) (env e1 e2 : σ) (b1 : Bool) (t1 : List Ev),
      runRules fi pre false env = (e1, b1, t1, Control.normal) →
      r.condition = some c → c e1 = false → r.else_body = some eb →
      runStmts eb e1 = (e2, Control.halt w) →
      runRules fi (pre ++ r :: post) false env =
        (e2, b1, t1 ++ [Ev.elseFired r.name], Control.halt w)) ∧
    (∀ (rules : List (GRule σ ρ)) (fi : Bool) (fuel : Nat) (env e1 : σ) (b1 : Bool)
       (t1 : List Ev) (v : Option ρ),
      runRules fi rules false env = (e1, b1, t1, Control.halt v) →
      stateLoop rules (fuel + 1) fi env = some (e1, t1, Control.halt v)) ∧
    (∀ (prog : List (List (GRule σ ρ))) (i fuel : Nat) (env e1 : σ) (t1 : List Ev)
       (v : Option ρ) (hi : i < prog.length),
      stateLoop (prog.get ⟨i, hi⟩) (fuel + 1) true env = some (e1, t1, Control.halt v) →
      runFrom prog (fuel + 1) i env = some (e1, t1, RunResult.returned v)) := by
  refine ⟨?_, ?_, ?_, ?_, ?_⟩
  · intro pre post v env e1 h
    rw [runStmts_append, h]
    simp [runStmts]
  · intro fi pre post r c w env e1 e2 b1 t1 hpre hc hce hb
    have hfire : runRule fi r b1 e1 = (e2, true, [Ev.fired r.name], Control.halt w) := by
      simp [runRule, hc, hce, hb]
    exact runRules_append_normal (r :: post) hpre (runRules_cons_abort hfire (by simp))
  · intro fi pre post r c eb w env e1 e2 b1 t1 hpre hc hce heb hb
    have hfire : runRule fi r b1 e1 = (e2, b1, [Ev.elseFired r.name], Control.halt w) := by
      simp [runRule, hc, hce, heb, hb]
    exact runRules_append_normal (r :: post) hpre (runRules_cons_abort hfire (by simp))
  · intro rules fi fuel env e1 b1 t1 v h
    simp [stateLoop, h]
  · intro prog i fuel env e1 t1 v hi hs
    simp only [runFrom, hi, dif_pos]
    rw [hs]

/-- Witness for C3: a bare `return;` as the second statement of a
block stops the block after one side effect and carries no value. -/
theorem c3_witness :
    runStmts ([GStmt.exec (fun e => e + 2)] ++ GStmt.ret none :: [GStmt.exec (fun e => e * 9)])
      (1 : Nat) = ((3 : Nat), Control.halt (ρ := Nat) none) := by
  exact (@c3_return_halts Nat Nat).1 [GStmt.exec (fun e => e + 2)]
    [GStmt.exec (fun e => e * 9)] none 1 3 rfl

/-- **C4**.  The fixed-point exit: (1) a full pass with the interaction
flag still false ends the state loop, the engine leaving the state by
fallthrough; (2) a full pass that raised the flag makes the loop run
another pass (with the first-pass flag now false); (3) on fallthrough
the dispatch loop proceeds to the next state in declaration order,
index `i + 1`; and (4) fallthrough happens only that way: a state loop
that ended normally had a final pass that completed with the
interaction flag false. -/
theorem c4_fixed_point_exit :
    (∀ (rules : List (GRule σ ρ)) (fi : Bool) (fuel : Nat) (env e1 : σ) (t1 : List Ev),
      runRules fi rules false env = (e1, false, t1, Control.normal) →
      stateLoop rules (fuel + 1) fi env = some (e1, t1, Control.normal)) ∧
    (∀ (rules : List (GRule σ ρ)) (fi : Bool) (fuel : Nat) (env e1 : σ) (t1 : List Ev),
      runRules fi rules false env = (e1, true, t1, Control.normal) →
      stateLoop rules (fuel + 1) fi env =
        (match stateLoop rules fuel false e1 with
         | none => none
         | some (e2, t2, out) => some (e2, t1 ++ t2, out))) ∧
    (∀ (prog : List (List (GRule σ ρ))) (i fuel : Nat) (env e1 : σ) (t1 : List Ev)
       (hi : i < prog.length),
      stateLoop (prog.get ⟨i, hi⟩) (fuel + 1) true env = some (e1, t1, Control.normal) →
      runFrom prog (fuel + 1) i env =
        (match runFrom prog fuel (i + 1) e1 with
         | none => none
         | some (e2, t2, res) => some (e2, t1 ++ t2, res))) ∧
    (∀ (rules : List (GRule σ ρ)) (fi : Bool) (fuel : Nat) (env e1 : σ) (tr : List Ev),
      stateLoop rules fuel fi env = some (e1, tr, Control.normal) →
      ∃ fi2 env2 t2, runRules fi2 rules false env2 = (e1, false, t2, Control.normal)) := by
  refine ⟨?_, ?_, ?_, ?_⟩
  · intro rules fi fuel env e1 t1 h
    simp [stateLoop, h]
  · intro rules fi fuel env e1 t1 h
    simp [stateLoop, h]
  · intro prog i fuel env e1 t1 hi hs
    simp only [runFrom, hi, dif_pos]
    rw [hs]
  · intro rules fi fuel
    induction fuel generalizing fi with
    | zero =>
      intro env e1 tr hs
      simp [stateLoop] at hs
    | succ fuel ih =>
      intro env e1 tr hs
      rcases hp : runRules fi rules false env with ⟨e2, inter, t2, c2⟩
      simp only [stateLoop] at hs
      rw [hp] at hs
      cases c2 with
      | normal =>
        cases inter with
        | false =>
          simp at hs
          exact ⟨fi, env, t2, by rw [hp, hs.1]⟩
        | true =>
          simp at hs
          rcases h2 : stateLoop rules fuel false e2 with _ | ⟨e3, t3, out3⟩
          · rw [h2] at hs
            simp at hs
          · rw [h2] at hs
            simp at hs
            rcases hs with ⟨he, _, hout⟩
            rw [hout] at h2
            obtain ⟨fi2, env2, t4, hfix⟩ := ih false e2 e3 t3 (by rw [h2])
            exact ⟨fi2, env2, t4, by rw [hfix, he]⟩
      | goto tg => simp at hs
      | halt v => simp at hs

/-- Witness for C4: the one-rule state `[onceRule]` reaches its fixed
point on the second pass (the conditionless rule fired only on the
first), so the loop exits normally; the final pass fired nothing. -/
theorem c4_witness :
    ∃ fi2 env2 t2,
      runRules fi2 [onceRule] false env2 = (100, false, t2, Control.normal) := by
  exact (@c4_fixed_point_exit Nat Nat).2.2.2 [onceRule] true 3 0 100 [Ev.fired "u"] rfl

/-- **C5**.  An else-body runs on every pass in which its rule's
condition is false: (1) whenever the condition evaluates false and an
else-body is present, the rule's generated block executes exactly the
else-body — for any value of the first-pass flag and the interaction
flag, i.e. on any pass; (2) in the middle of a pass the else-body's
effects thread into the rules after it, its event is recorded, and the
pass continues. -/
theorem c5_else_reevaluation :
    (∀ (fi : Bool) (r : GRule σ ρ) (c : σ → Bool) (eb : List (GStmt σ ρ))
       (inter : Bool) (env e1 : σ) (ctl : Control ρ),
      r.condition = some c → c env = false → r.else_body = some eb →
      runStmts eb env = (e1, ctl) →
      runRule fi r inter env = (e1, inter, [Ev.elseFired r.name], ctl)) ∧
    (∀ (fi : Bool) (pre post : List (GRule σ ρ)) (r : GRule σ ρ) (c : σ → Bool)
       (eb : List (GStmt σ ρ)) (b : Bool) (env e1 e2 e3 : σ) (b1 b3 : Bool)
       (t1 t3 : List Ev) (c3 : Control ρ),
      runRules fi pre b env = (e1, b1, t1, Control.normal) →
      r.condition = some c → c e1 = false → r.else_body = some eb →
      runStmts eb e1 = (e2, Control.normal) →
      runRules fi post b1 e2 = (e3, b3, t3, c3) →
      runRules fi (pre ++ r :: post) b env =
        (e3, b3, t1 ++ Ev.elseFired r.name :: t3, c3)) := by
  constructor
  · intro fi r c eb inter env e1 ctl hc hce heb hrun
    simp [runRule, hc, hce, heb, hrun]
  · intro fi pre post r c eb b env e1 e2 e3 b1 b3 t1 t3 c3 hpre hc hce heb hrun hpost
    have hstep : runRule fi r b1 e1 = (e2, b1, [Ev.elseFired r.name], Control.normal) := by
      simp [runRule, hc, hce, heb, hrun]
    have := runRules_append_normal (r :: post) hpre (runRules_cons_normal hstep hpost)
    simpa using this

/-- Witness for C5: the else-body of `elseRule` runs on a pass with the
first-pass flag false and adds 5 to the environment. -/
theorem c5_witness :
    runRule false elseRule false 0 = (5, false, [Ev.elseFired "a"], Control.normal) := by
  exact (@c5_else_reevaluation Nat Nat).1 false elseRule (fun _ => false)
    [GStmt.exec (fun e => e + 5)] false 0 5 Control.normal rfl rfl rfl rfl

/-- Helper for C10: a pass in which no rule fires returns the
interaction flag it started with, completes normally, and logs no
firing event. -/
theorem noFirePass_runRules {rules : List (GRule σ ρ)} {env env1 : σ}
    (h : NoFirePass rules env env1) :
    ∀ inter, ∃ tr, runRules false rules inter env = (env1, inter, tr, Control.normal) ∧
      ∀ n, tr.count (Ev.fired n) = 0 := by
  induction h with
  | nil env =>
    intro inter
    exact ⟨[], by simp [runRules], by simp⟩
  | condNoElse r rest c env env1 hc hce heb _ ih =>
    intro inter
    obtain ⟨tr, hrun, hcount⟩ := ih inter
    have hstep : runRule false r inter env = (env, inter, [], Control.normal) := by
      simp [runRule, hc, hce, heb]
    exact ⟨tr, by simpa using runRules_cons_normal hstep hrun, hcount⟩
  | condElse r rest c eb env enve env1 hc hce heb hrun _ ih =>
    intro inter
    obtain ⟨tr, hrest, hcount⟩ := ih inter
    have hstep : runRule false r inter env =
        (enve, inter, [Ev.elseFired r.name], Control.normal) := by
      simp [runRule, hc, hce, heb, hrun]
    refine ⟨Ev.elseFired r.name :: tr, by simpa using runRules_cons_normal hstep hrest, ?_⟩
    intro n
    simp [List.count_cons, hcount n]
  | uncond r rest env env1 hc _ ih =>
    intro inter
    obtain ⟨tr, hrest, hcount⟩ := ih inter
    exact ⟨tr, by simpa using runRules_cons_normal (runRule_uncond_skip hc inter env) hrest,
      hcount⟩

/-- **C10**.  Else-bodies never set the interaction flag: a full pass
past the first (first-pass flag false) in which every condition
evaluates false leaves the flag false even when else-bodies mutated the
environment (`env1` need not equal `env`), no rule fires, and the state
loop exits immediately at its fixed point. -/
theorem c10_else_no_interaction {rules : List (GRule σ ρ)} {env env1 : σ}
    (h : NoFirePass rules env env1) :
    ∃ tr, runRules false rules false env = (env1, false, tr, Control.normal) ∧
      (∀ n, tr.count (Ev.fired n) = 0) ∧
      ∀ fuel, stateLoop rules (fuel + 1) false env = some (env1, tr, Control.normal) := by
  obtain ⟨tr, hrun, hcount⟩ := noFirePass_runRules h false
  refine ⟨tr, hrun, hcount, ?_⟩
  intro fuel
  simp [stateLoop, hrun]

/-- Witness for C10: the else-body of `elseRule` changes the
environment from 0 to 5, yet the pass reaches the fixed point and the
state loop exits. -/
theorem c10_witness :
    ∃ tr, runRules false [elseRule] false 0 = (5, false, tr, Control.normal) ∧
      (∀ n, tr.count (Ev.fired n) = 0) ∧
      ∀ fuel, stateLoop [elseRule] (fuel + 1) false 0 = some (5, tr, Control.normal) := by
  exact c10_else_no_interaction
    (NoFirePass.condElse elseRule [] (fun _ => false) [GStmt.exec (fun e => e + 5)] 0 5 5
      rfl rfl rfl rfl (@NoFirePass.nil Nat Nat 5))

/-- **C6** (counterexample).  The claim says a run that falls through
the last state without a `Return` yields the empty value rather than
failing.  Running `noReturnProg` (one state, no return) actually
reaches the generated `panic!` arm: the result is
`RunResult.panicked`, not `RunResult.returned none`. -/
theorem c6_counterexample :
    run noReturnProg 3 0 =
      some (1, [Ev.fired "u"], RunResult.panicked "Error: No return in final state") ∧
    RunResult.panicked (ρ := Nat) "Error: No return in final state" ≠
      RunResult.returned none := by
  refine ⟨rfl, ?_⟩
  intro h
  exact RunResult.noConfusion h

/-- **C6** (amended).  Falling through past the last declared state
does not yield an empty value: the dispatch loop's catch-all arm
panics with "Error: No return in final state".  Only a `return`
statement produces a `RunResult.returned` result. -/
theorem c6_fallthrough_panics (prog : List (List (GRule σ ρ))) (i fuel : Nat) (env : σ)
    (h : prog.length ≤ i) :
    runFrom prog (fuel + 1) i env =
      some (env, [], RunResult.panicked "Error: No return in final state") := by
  simp only [runFrom]
  rw [dif_neg (Nat.not_lt.mpr h)]

/-- Witness for C6: past the single state of `noReturnProg`, the run
panics. -/
theorem c6_witness :
    runFrom noReturnProg 1 1 7 =
      some (7, [], RunResult.panicked "Error: No return in final state") := by
  exact c6_fallthrough_panics noReturnProg 1 0 7 (by decide)

/-- **C9**.  `Rule::parse` rejects an else-clause on a conditionless
rule: building a rule with no condition but an else-body is an error,
and every rule that parses satisfies the invariant that an else-body
implies a condition.  The check runs during parsing, before validation
or any generated code exists. -/
theorem c9_else_requires_condition :
    (∀ (name : String) (body : List (BanishStmt σ ρ)) (eb : List (BanishStmt σ ρ)),
      ∃ e, mk_rule name none body (some eb) = Except.error e) ∧
    (∀ (name : String) (condition : Option (σ → Bool)) (body : List (BanishStmt σ ρ))
       (else_body : Option (List (BanishStmt σ ρ))) (r : Rule σ ρ),
      mk_rule name condition body else_body = Except.ok r →
      r.else_body.isSome → r.condition.isSome) := by
  constructor
  · intro name body eb
    exact ⟨_, rfl⟩
  · intro name condition body else_body r h
    cases condition with
    | some c =>
      simp [mk_rule] at h
      rw [← h]
      simp
    | none =>
      cases else_body with
      | some eb => simp [mk_rule] at h
      | none =>
        simp [mk_rule] at h
        rw [← h]
        simp

/-- Witness for C9: a conditionless rule with an else-body is
rejected. -/
theorem c9_witness :
    ∃ e, mk_rule (σ := Nat) (ρ := Nat) "b" none [] (some []) = Except.error e := by
  exact (@c9_else_requires_condition Nat Nat).1 "b" [] []

/-- Characterization of the per-state rule-name check: it succeeds
exactly when the rule names are pairwise distinct and none collides
with the already-seen set. -/
theorem checkRules_ok_iff (stateName : String) :
    ∀ (rules : List (Rule σ ρ)) (seen : List String),
      checkRules stateName rules seen = Except.ok () ↔
        ((rules.map Rule.name).Nodup ∧ ∀ n ∈ rules.map Rule.name, n ∉ seen) := by
  intro rules
  induction rules with
  | nil =>
    intro seen
    simp [checkRules]
  | cons r rest ih =>
    intro seen
    by_cases hmem : r.name ∈ seen
    · simp only [checkRules, if_pos hmem]
      constructor
      · intro h
        exact Except.noConfusion h
      · rintro ⟨_, hall⟩
        exact absurd hmem (hall r.name (by simp))
    · simp only [checkRules, if_neg hmem]
      rw [ih (r.name :: seen)]
      simp only [List.map_cons, List.nodup_cons, List.mem_cons]
      constructor
      · rintro ⟨hnd, hall⟩
        refine ⟨⟨?_, hnd⟩, ?_⟩
        · intro hmm
          exact (hall r.name hmm) (by simp)
        · rintro n (rfl | hn)
          · exact hmem
          · exact fun hns => (hall n hn) (by simp [hns])
      · rintro ⟨⟨hnotin, hnd⟩, hall⟩
        refine ⟨hnd, ?_⟩
        intro n hn hcon
        rcases hcon with rfl | hns
        · exact hnotin hn
        · exact (hall n (Or.inr hn)) hns

/-- Characterization of the whole name validator walk. -/
theorem validateStates_ok_iff :
    ∀ (states : List (State σ ρ)) (seen : List String),
      validateStates states seen = Except.ok () ↔
        ((states.map State.name).Nodup ∧ (∀ n ∈ states.map State.name, n ∉ seen) ∧
          ∀ s ∈ states, (s.rules.map Rule.name).Nodup) := by
  intro states
  induction states with
  | nil =>
    intro seen
    simp [validateStates]
  | cons s rest ih =>
    intro seen
    by_cases hmem : s.name ∈ seen
    · simp only [validateStates, if_pos hmem]
      constructor
      · intro h
        exact Except.noConfusion h
      · rintro ⟨_, hall, _⟩
        exact absurd hmem (hall s.name (by simp))
    · simp only [validateStates, if_neg hmem]
      rcases hcheck : checkRules s.name s.rules [] with e | u
      · have hnotok : ¬(s.rules.map Rule.name).Nodup := by
          intro hnd
          have hok := (checkRules_ok_iff s.name s.rules []).mpr ⟨hnd, by simp⟩
          rw [hcheck] at hok
          exact Except.noConfusion hok
        constructor
        · intro h
          exact Except.noConfusion h
        · rintro ⟨_, _, hall⟩
          exact absurd (hall s (by simp)) hnotok
      · cases u
        have hsrules : (s.rules.map Rule.name).Nodup :=
          ((checkRules_ok_iff s.name s.rules []).mp hcheck).1
        change validateStates rest (s.name :: seen) = Except.ok () ↔ _
        rw [ih (s.name :: seen)]
        simp only [List.map_cons, List.nodup_cons, List.mem_cons]
        constructor
        · rintro ⟨hnd, hall, hrules⟩
          refine ⟨⟨?_, hnd⟩, ?_, ?_⟩
          · intro hmm
            exact (hall _ hmm) (by simp)
          · rintro n (rfl | hn)
            · exact hmem
            · exact fun hns => (hall n hn) (by simp [hns])
          · rintro s2 (rfl | hs2)
            · exact hsrules
            · exact hrules s2 hs2
        · rintro ⟨⟨hnotin, hnd⟩, hall, hrules⟩
          refine ⟨hnd, ?_, fun s2 hs2 => hrules s2 (by simp [hs2])⟩
          intro n hn hcon
          rcases hcon with rfl | hns
          · exact hnotin hn
          · exact (hall n (Or.inr hn)) hns

/-- **C7**.  Name validation: the validator accepts a program exactly
when state names are pairwise distinct and, within each state, rule
names are pairwise distinct — so the same rule name in two different
states is accepted (the check is scoped per state).  Any violation
makes `validate_state_and_rule_names` fail, and the macro returns that
error without generating any code, so no action can ever execute —
whether or not the duplicate rule would have fired. -/
theorem c7_name_validation (ctx : Context σ ρ) :
    (validate_state_and_rule_names ctx = Except.ok () ↔
      ((ctx.states.map State.name).Nodup ∧
        ∀ s ∈ ctx.states, (s.rules.map Rule.name).Nodup)) ∧
    (∀ e, validate_state_and_rule_names ctx = Except.error e →
      banish ctx = Except.error e) ∧
    (¬((ctx.states.map State.name).Nodup ∧
        ∀ s ∈ ctx.states, (s.rules.map Rule.name).Nodup) →
      ∃ e, validate_state_and_rule_names ctx = Except.error e ∧
        banish ctx = Except.error e) := by
  have hiff : validate_state_and_rule_names ctx = Except.ok () ↔
      ((ctx.states.map State.name).Nodup ∧
        ∀ s ∈ ctx.states, (s.rules.map Rule.name).Nodup) := by
    unfold validate_state_and_rule_names
    rw [validateStates_ok_iff]
    simp
  refine ⟨hiff, ?_, ?_⟩
  · intro e he
    simp [banish, he]
  · intro hn
    rcases h : validate_state_and_rule_names ctx with e | u
    · exact ⟨e, rfl, by simp [banish, h]⟩
    · cases u
      exact absurd (hiff.mp h) hn

/-- Witness for C7: a program with two states named "s" is rejected by
the macro with the duplicate-state error; no code is generated. -/
theorem c7_witness :
    banish ctxDup = Except.error ("Duplicate state name " ++ "s") := by
  exact (c7_name_validation ctxDup).2.1 ("Duplicate state name " ++ "s") rfl

theorem position_some_lt {p : α → Bool} :
    ∀ (l : List α) (i : Nat), position p l = some i →
      ∃ h : i < l.length, p (l.get ⟨i, h⟩) = true := by
  intro l
  induction l with
  | nil =>
    intro i h
    simp [position] at h
  | cons a rest ih =>
    intro i h
    by_cases hp : p a
    · simp [position, hp] at h
      subst h
      exact ⟨Nat.succ_pos _, hp⟩
    · simp [position, hp] at h
      obtain ⟨j, hj, hij⟩ := h
      obtain ⟨hlt, hpj⟩ := ih j hj
      subst hij
      exact ⟨Nat.succ_lt_succ hlt, hpj⟩

theorem position_none_iff {p : α → Bool} :
    ∀ (l : List α), position p l = none ↔ ∀ a ∈ l, p a = false := by
  intro l
  induction l with
  | nil => simp [position]
  | cons a rest ih =>
    by_cases hp : p a
    · simp [position, hp]
    · simp [position, hp, ih]

theorem generate_stmts_ok (ctx : Context σ ρ) :
    ∀ (stmts : List (BanishStmt σ ρ)) (gs : List (GStmt σ ρ)),
      generate_stmts ctx stmts = Except.ok gs →
      (∀ g ∈ gs, ∃ s ∈ stmts, generate_stmt ctx s = Except.ok g) ∧
      (∀ s ∈ stmts, ∃ g, generate_stmt ctx s = Except.ok g) := by
  intro stmts
  induction stmts with
  | nil =>
    intro gs h
    simp [generate_stmts] at h
    subst h
    simp
  | cons s rest ih =>
    intro gs h
    rcases h1 : generate_stmt ctx s with e | g1 <;> simp only [generate_stmts, h1] at h
    · exact Except.noConfusion h
    · rcases h2 : generate_stmts ctx rest with e | gs2 <;> rw [h2] at h
      · exact Except.noConfusion h
      · simp at h
        subst h
        obtain ⟨hmem, hfwd⟩ := ih gs2 h2
        constructor
        · intro g hgm
          rcases List.mem_cons.mp hgm with rfl | hg
          · exact ⟨s, by simp, h1⟩
          · obtain ⟨s2, hs2, hgen⟩ := hmem g hg
            exact ⟨s2, by simp [hs2], hgen⟩
        · intro s2 hsm
          rcases List.mem_cons.mp hsm with rfl | hs2
          · exact ⟨g1, h1⟩
          · exact hfwd s2 hs2

theorem generate_state_ok (ctx : Context σ ρ) :
    ∀ (rules : List (Rule σ ρ)) (grs : List (GRule σ ρ)),
      generate_state ctx rules = Except.ok grs →
      (∀ g ∈ grs, ∃ r ∈ rules, generate_rule ctx r = Except.ok g) ∧
      (∀ r ∈ rules, ∃ g, generate_rule ctx r = Except.ok g) := by
  intro rules
  induction rules with
  | nil =>
    intro grs h
    simp [generate_state] at h
    subst h
    simp
  | cons r rest ih =>
    intro grs h
    rcases h1 : generate_rule ctx r with e | g1 <;> simp only [generate_state, h1] at h
    · exact Except.noConfusion h
    · rcases h2 : generate_state ctx rest with e | grs2 <;> rw [h2] at h
      · exact Except.noConfusion h
      · simp at h
        subst h
        obtain ⟨hmem, hfwd⟩ := ih grs2 h2
        constructor
        · intro g hgm
          rcases List.mem_cons.mp hgm with rfl | hg
          · exact ⟨r, by simp, h1⟩
          · obtain ⟨r2, hr2, hgen⟩ := hmem g hg
            exact ⟨r2, by simp [hr2], hgen⟩
        · intro r2 hrm
          rcases List.mem_cons.mp hrm with rfl | hr2
          · exact ⟨g1, h1⟩
          · exact hfwd r2 hr2

theorem generate_states_ok (ctx : Context σ ρ) :
    ∀ (states : List (State σ ρ)) (gp : List (List (GRule σ ρ))),
      generate_states ctx states = Except.ok gp →
      gp.length = states.length ∧
      (∀ rs ∈ gp, ∃ s ∈ states, generate_state ctx s.rules = Except.ok rs) ∧
      (∀ s ∈ states, ∃ rs, generate_state ctx s.rules = Except.ok rs) := by
  intro states
  induction states with
  | nil =>
    intro gp h
    simp [generate_states] at h
    subst h
    simp
  | cons s rest ih =>
    intro gp h
    rcases h1 : generate_state ctx s.rules with e | g1 <;> simp only [generate_states, h1] at h
    · exact Except.noConfusion h
    · rcases h2 : generate_states ctx rest with e | gp2 <;> rw [h2] at h
      · exact Except.noConfusion h
      · simp at h
        subst h
        obtain ⟨hlen, hmem, hfwd⟩ := ih gp2 h2
        refine ⟨by simp [hlen], ?_, ?_⟩
        · intro rs hrm
          rcases List.mem_cons.mp hrm with rfl | hrs
          · exact ⟨s, by simp, h1⟩
          · obtain ⟨s2, hs2, hgen⟩ := hmem rs hrs
            exact ⟨s2, by simp [hs2], hgen⟩
        · intro s2 hsm
          rcases List.mem_cons.mp hsm with rfl | hs2
          · exact ⟨g1, h1⟩
          · exact hfwd s2 hs2

theorem generate_rule_ok (ctx : Context σ ρ) (r : Rule σ ρ) (g : GRule σ ρ)
    (h : generate_rule ctx r = Except.ok g) :
    generate_stmts ctx r.body = Except.ok g.body ∧
    ((r.else_body = none ∧ g.else_body = none) ∨
      (∃ eb geb, r.else_body = some eb ∧ g.else_body = some geb ∧
        generate_stmts ctx eb = Except.ok geb)) := by
  unfold generate_rule at h
  split at h
  · exact Except.noConfusion h
  · rename_i gb hb
    split at h
    · rename_i heb
      simp at h
      subst h
      exact ⟨hb, Or.inl ⟨heb, rfl⟩⟩
    · rename_i eb heb
      split at h
      · exact Except.noConfusion h
      · rename_i geb hgeb
        simp at h
        subst h
        exact ⟨hb, Or.inr ⟨eb, geb, heb, rfl, hgeb⟩⟩

theorem generate_stmt_goto_inv (ctx : Context σ ρ) (s : BanishStmt σ ρ) (st : Nat)
    (h : generate_stmt ctx s = Except.ok (GStmt.goto st)) :
    ∃ t, s = BanishStmt.stateTransition t ∧
      position (fun s2 => s2.name == t) ctx.states = some st := by
  cases s with
  | rust rs =>
    cases rs with
    | exec f => simp [generate_stmt] at h
    | ret v => simp [generate_stmt] at h
  | stateTransition t =>
    refine ⟨t, rfl, ?_⟩
    rcases hp : position (fun s2 => s2.name == t) ctx.states with _ | i <;>
      simp only [generate_stmt] at h <;> rw [hp] at h
    · exact Except.noConfusion h
    · simp at h
      rw [hp, h]

/-- **C8**.  Transition-target resolution is static: (1) a transition
whose target names no declared state makes `generate_stmt` fail with
the invalid-target error during macro expansion; (2) a resolved target
is the index of a declared state bearing that name; (3) a program the
macro accepts has every generated `goto` index within range of the
generated state list (whose length equals the declared state count), so
no runtime error can arise from an unresolved target; (4) if any rule
body or else-body contains a transition to an undeclared name, the
macro returns an error — execution never starts. -/
theorem c8_transition_resolution (ctx : Context σ ρ) :
    (∀ t, (∀ s ∈ ctx.states, s.name ≠ t) →
      generate_stmt ctx (BanishStmt.stateTransition t) =
        Except.error ("Error: Invalid state transition target " ++ t)) ∧
    (∀ t i, generate_stmt ctx (BanishStmt.stateTransition t) = Except.ok (GStmt.goto i) →
      ∃ h : i < ctx.states.length, (ctx.states.get ⟨i, h⟩).name = t) ∧
    (∀ gp, banish ctx = Except.ok gp →
      gp.length = ctx.states.length ∧
      ∀ rs ∈ gp, ∀ r ∈ rs, ∀ st,
        (GStmt.goto st ∈ r.body ∨ ∃ geb, r.else_body = some geb ∧ GStmt.goto st ∈ geb) →
        st < gp.length) ∧
    (∀ t (s : State σ ρ) (r : Rule σ ρ),
      s ∈ ctx.states → r ∈ s.rules →
      (BanishStmt.stateTransition t ∈ r.body ∨
        ∃ eb, r.else_body = some eb ∧ BanishStmt.stateTransition t ∈ eb) →
      (∀ s2 ∈ ctx.states, s2.name ≠ t) →
      ∃ e, banish ctx = Except.error e) := by
  refine ⟨?_, ?_, ?_, ?_⟩
  · intro t hne
    have hpos : position (fun s2 => s2.name == t) ctx.states = none :=
      (position_none_iff ctx.states).mpr
        (fun s2 hs2 => beq_eq_false_iff_ne.mpr (hne s2 hs2))
    simp [generate_stmt, hpos]
  · intro t i h
    obtain ⟨t2, ht2, hpos⟩ := generate_stmt_goto_inv ctx _ i h
    injection ht2 with ht
    subst ht
    obtain ⟨hlt, hp⟩ := position_some_lt ctx.states i hpos
    exact ⟨hlt, by simpa using hp⟩
  · intro gp hb
    unfold banish at hb
    rcases hv : validate_state_and_rule_names ctx with e | u
    · rw [hv] at hb
      exact Except.noConfusion hb
    · cases u
      rw [hv] at hb
      obtain ⟨hlen, hmem, _⟩ := generate_states_ok ctx ctx.states gp hb
      refine ⟨hlen, ?_⟩
      intro rs hrs r hr st hgoto
      obtain ⟨s, hsmem, hgs⟩ := hmem rs hrs
      obtain ⟨hgmem, _⟩ := generate_state_ok ctx s.rules rs hgs
      obtain ⟨r0, hr0, hgr⟩ := hgmem r hr
      obtain ⟨hbody, helse⟩ := generate_rule_ok ctx r0 r hgr
      have hstmt : ∃ s1, generate_stmt ctx s1 = Except.ok (GStmt.goto st) := by
        rcases hgoto with hmemb | ⟨geb, hgeb, hmemb⟩
        · obtain ⟨hm, _⟩ := generate_stmts_ok ctx r0.body r.body hbody
          obtain ⟨s1, _, hok⟩ := hm _ hmemb
          exact ⟨s1, hok⟩
        · rcases helse with ⟨_, hnone⟩ | ⟨eb, geb2, _, hgeb2, hgebok⟩
          · rw [hnone] at hgeb
            exact Option.noConfusion hgeb
          · rw [hgeb2] at hgeb
            injection hgeb with hgeq
            subst hgeq
            obtain ⟨hm, _⟩ := generate_stmts_ok ctx eb geb2 hgebok
            obtain ⟨s1, _, hok⟩ := hm _ hmemb
            exact ⟨s1, hok⟩
      obtain ⟨s1, hok⟩ := hstmt
      obtain ⟨t2, _, hpos⟩ := generate_stmt_goto_inv ctx s1 st hok
      obtain ⟨hlt, _⟩ := position_some_lt ctx.states st hpos
      rw [hlen]
      exact hlt
  · intro t s r hsmem hrmem htrans hne
    rcases hb : banish ctx with e | gp
    · exact ⟨e, rfl⟩
    · exfalso
      have hpos : position (fun s2 => s2.name == t) ctx.states = none :=
        (position_none_iff ctx.states).mpr
          (fun s2 hs2 => beq_eq_false_iff_ne.mpr (hne s2 hs2))
      have h1 : generate_stmt ctx (BanishStmt.stateTransition t) =
          Except.error ("Error: Invalid state transition target " ++ t) := by
        simp [generate_stmt, hpos]
      unfold banish at hb
      rcases hv : validate_state_and_rule_names ctx with e | u
      · rw [hv] at hb
        exact Except.noConfusion hb
      · cases u
        rw [hv] at hb
        obtain ⟨_, _, hfwd⟩ := generate_states_ok ctx ctx.states gp hb
        obtain ⟨rs, hgs⟩ := hfwd s hsmem
        obtain ⟨_, hfwd2⟩ := generate_state_ok ctx s.rules rs hgs
        obtain ⟨g, hgr⟩ := hfwd2 r hrmem
        obtain ⟨hbody, helse⟩ := generate_rule_ok ctx r g hgr
        rcases htrans with hmemb | ⟨eb, heb, hmemb⟩
        · obtain ⟨_, hfwd3⟩ := generate_stmts_ok ctx r.body g.body hbody
          obtain ⟨g1, hok⟩ := hfwd3 _ hmemb
          rw [h1] at hok
          exact Except.noConfusion hok
        · rcases helse with ⟨hnone, _⟩ | ⟨eb2, geb, heb2, _, hgebok⟩
          · rw [hnone] at heb
            exact Option.noConfusion heb
          · rw [heb2] at heb
            injection heb with hebeq
            subst hebeq
            obtain ⟨_, hfwd3⟩ := generate_stmts_ok ctx eb2 geb hgebok
            obtain ⟨g1, hok⟩ := hfwd3 _ hmemb
            rw [h1] at hok
            exact Except.noConfusion hok

/-- Witness for C8: a transition to the undeclared state "nowhere" is
a macro-expansion error. -/
theorem c8_witness :
    generate_stmt ctxBadTarget (BanishStmt.stateTransition "nowhere") =
      Except.error ("Error: Invalid state transition target " ++ "nowhere") := by
  exact (c8_transition_resolution ctxBadTarget).1 "nowhere" (by simp [ctxBadTarget])

end Banish
